import Mathlib

set_option maxRecDepth 8000

/-!
Shallow embedding of `src/cubes/backends/sql/common.py`: the module-level
helper `coalesce_physical` and the `Mapper` class, which translate logical
OLAP-model references into physical `(schema, table, column)` references
and compute the joins needed to reach a given set of tables.

Modelling conventions:

* Python string-or-`None` values are `Option String`.  Python truthiness on
  such values (`a or b`, `if x:`) treats both `None` and `""` as falsy; the
  helpers `pyOr` / `pyOrS` reproduce `a or b` faithfully.
* Raised Python exceptions are modelled with `Except String`.
* Python dicts used as finite maps are association lists with overwriting
  insert (`dinsert`) and first-match lookup (`dlookup`).
* The unordered work-set popped by `Mapper.relevant_joins` (a Python `set`)
  is a duplicate-free list popped from the head; the source leaves the pop
  order unspecified.
-/

deriving instance DecidableEq for Except

/-- Python `a or b` on string-or-None values: `None` and `""` are falsy. -/
def pyOr (a b : Option String) : Option String :=
  match a with
  | some s => if s = "" then b else some s
  | none => b

/-- Python `a or b` on a string-or-None value with a plain-string fallback. -/
def pyOrS (a : Option String) (b : String) : String :=
  match a with
  | some s => if s = "" then b else s
  | none => b

/-- The `PhysicalReference` named tuple: `(schema, table, column)`. -/
structure PhysicalReference where
  schema : Option String
  table : Option String
  column : Option String
deriving DecidableEq, Repr

/-- The `Join` named tuple: master/detail physical references plus an alias. -/
structure Join where
  master : PhysicalReference
  detail : PhysicalReference
  «alias» : Option String
deriving DecidableEq, Repr

/-- The raw reference shapes accepted by `coalesce_physical`: a
`"table.column"` string, a keyed record (Python dict with optional `schema`,
`table`, `column` keys; a missing key and an explicit `None` value are
indistinguishable through `dict.get`), or a 2/3-element list. -/
inductive Ref where
  | str (s : String)
  | dict (schema table column : Option String)
  | list (items : List (Option String))
deriving DecidableEq, Repr

/-- Python truthiness of a raw reference (used by `if mapped_ref:`): the
empty string, the empty list and a record with no keys are falsy. -/
def Ref.truthy : Ref → Bool
  | .str s => !(s == "")
  | .dict sc t c => sc.isSome || t.isSome || c.isSome
  | .list items => !items.isEmpty

/-- Worker for `pySplitDot` (structural recursion over the characters, so
that the kernel can evaluate it). -/
def splitDotGo : List Char → List Char → List String
  | [], cur => [String.mk cur.reverse]
  | c :: rest, cur =>
      if c = '.' then String.mk cur.reverse :: splitDotGo rest []
      else splitDotGo rest (c :: cur)

/-- Python `s.split(".")`. -/
def pySplitDot (s : String) : List String :=
  splitDotGo s.data []

/-- Python `".".join(parts)`. -/
def joinDot : List String → String
  | [] => ""
  | [x] => x
  | x :: y :: rest => x ++ "." ++ joinDot (y :: rest)

/-- `coalesce_physical(ref, default_table=None, schema=None)` from the
source: normalizes a raw reference into a `PhysicalReference`, applying the
given defaults for a missing table/schema, and raising when a list has a
number of elements other than 2 or 3. -/
def coalesce_physical (ref : Ref) (default_table : Option String)
    (schema : Option String) : Except String PhysicalReference :=
  match ref with
  | .str s =>
      match pySplitDot s with
      | t :: c :: rest => .ok ⟨schema, some t, some (joinDot (c :: rest))⟩
      | _ => .ok ⟨schema, default_table, some s⟩
  | .dict rschema rtable rcolumn =>
      .ok ⟨pyOr rschema schema, pyOr rtable default_table, rcolumn⟩
  | .list items =>
      match items with
      | [t, c] => .ok ⟨schema, t, c⟩
      | [sc, t, c] => .ok ⟨sc, t, c⟩
      | _ => .error "Number of items in table reference should be 2 (table, column) or 3 (schema, table, column)"

/-- The dimension data read by the Mapper: name, `is_flat`, `has_details`.
(The attribute's `dimension` back-reference carries this snapshot.) -/
structure Dimension where
  name : String
  is_flat : Bool
  has_details : Bool
deriving DecidableEq, Repr

/-- The attribute data read by the Mapper: its name (`str(attribute)`), its
owning dimension (absent for fact-level attributes) and its declared
locales.  `locales = none` models `attribute.locales` raising, which the
source swallows with a bare `except:`; `some []` models an attribute that
declares no locales. -/
structure Attribute where
  name : String
  dimension : Option Dimension
  locales : Option (List String)
deriving DecidableEq, Repr

/-- A dimension level: an ordered list of attributes. -/
structure CubeLevel where
  attributes : List Attribute
deriving DecidableEq, Repr

/-- A dimension together with its levels, as enumerated by
`Mapper._collect_attributes`. -/
structure DimensionDecl where
  dim : Dimension
  levels : List CubeLevel
deriving DecidableEq, Repr

/-- The cube data consumed by the Mapper.  `mappings = []` models both a
`None` and an empty override dict (they behave identically under
`if self.cube.mappings:` and `.get`). -/
structure Cube where
  name : String
  fact : Option String
  mappings : List (String × Ref)
  measures : List Attribute
  details : List Attribute
  dimensions : List DimensionDecl
deriving DecidableEq, Repr

/-- First-match lookup in an association list (Python `dict.get`). -/
def dlookup {α β : Type} [DecidableEq α] (k : α) : List (α × β) → Option β
  | [] => none
  | (a, b) :: d => if a = k then some b else dlookup k d

/-- Overwriting insert (Python `dict[k] = v`). -/
def dinsert {α β : Type} [DecidableEq α] (d : List (α × β)) (k : α) (v : β) :
    List (α × β) :=
  (k, v) :: d.filter (fun p => !decide (p.1 = k))

/-- `Mapper.logical`, parameterized by the
`simplify_dimension_references` flag (which `__init__` always sets to
`True`): the reference of a dimension attribute is `dimension.attribute`,
collapsed to the bare dimension name for a simplified flat dimension; a
fact-level attribute's reference is its own name. -/
def logicalRef (simplify : Bool) (attr : Attribute) : String :=
  match attr.dimension with
  | some dim =>
      if simplify && (dim.is_flat && !dim.has_details) then dim.name
      else dim.name ++ "." ++ attr.name
  | none => attr.name

/-- `Mapper._collect_attributes`: visit fact measures, fact details, then
every dimension level's attributes, keying each by its logical reference
(last writer wins, as for a Python dict). -/
def collect_attributes (simplify : Bool) (cube : Cube) :
    List (String × Attribute) :=
  let step := fun (acc : List (String × Attribute)) (attr : Attribute) =>
    dinsert acc (logicalRef simplify attr) attr
  let acc := cube.measures.foldl step []
  let acc := cube.details.foldl step acc
  cube.dimensions.foldl
    (fun acc d => d.levels.foldl
      (fun acc lv => lv.attributes.foldl step acc) acc) acc

/-- A raw join specification handed to the Mapper: `master`, `detail` and
an optional `alias` (Python `join.get("alias")`). -/
structure RawJoin where
  master : Ref
  detail : Ref
  «alias» : Option String
deriving DecidableEq, Repr

/-- `Mapper._collect_joins`: coalesce each raw join's master with the fact
table name as the default table, and its detail with no defaults; neither
call receives a default schema. -/
def collect_joins (fact_name : String) : List RawJoin → Except String (List Join)
  | [] => .ok []
  | rj :: rest =>
      match coalesce_physical rj.master (some fact_name) none with
      | .error e => .error e
      | .ok master =>
          match coalesce_physical rj.detail none none with
          | .error e => .error e
          | .ok detail =>
              match collect_joins fact_name rest with
              | .error e => .error e
              | .ok js => .ok (⟨master, detail, rj.alias⟩ :: js)

/-- The Mapper state after `__init__`.  `mappings` is the constructor
argument as stored (and never consulted by `physical`); `dim_table_pfx`
is the source's `dimension_table_prefix` attribute. -/
structure Mapper where
  cube : Cube
  mappings : Option (List (String × Ref))
  locale : Option String
  fact_name : String
  schema : Option String
  simplify_dimension_references : Bool
  dim_table_pfx : Option String
  attributes : List (String × Attribute)
  joins : List Join
deriving DecidableEq, Repr

/-- `Mapper.__init__(cube, mappings, locale, schema, fact_name,
dimension_prefix, joins)`.  The `cube is None` check is enforced by typing;
the fact name falls back from the explicit argument to `cube.fact` to
`cube.name` (Python `or`, so empty strings also fall through);
`simplify_dimension_references` is unconditionally `True`. -/
def Mapper.make (cube : Cube) (mappings : Option (List (String × Ref)))
    (locale : Option String) (schema : Option String)
    (fact_name : Option String) (dimension_pfx : Option String)
    (joins : List RawJoin) : Except String Mapper :=
  match collect_joins (pyOrS fact_name (pyOrS cube.fact cube.name)) joins with
  | .error e => .error e
  | .ok js =>
      .ok ⟨cube, mappings, locale, pyOrS fact_name (pyOrS cube.fact cube.name),
           schema, true, dimension_pfx, collect_attributes true cube, js⟩

/-- The locale fix-up at the top of `Mapper.physical`: a localizable
attribute uses the requested locale if declared, else its first declared
locale; an attribute with no (or unreadable) locales forces `None`. -/
def resolveLocale (locales : Option (List String)) (locale : Option String) :
    Option String :=
  match locales with
  | none => none
  | some [] => none
  | some (l0 :: ls) =>
      match locale with
      | some l => if l ∈ l0 :: ls then some l else some l0
      | none => some l0

/-- Python `if locale: base += sep + locale` (a no-op for `None` and,
by truthiness, for the empty string). -/
def pyAddSfx (base sep : String) (locale : Option String) : String :=
  match locale with
  | some l => if l = "" then base else base ++ sep ++ l
  | none => base

/-- `Mapper.logical` on a constructed Mapper. -/
def Mapper.logical (m : Mapper) (attr : Attribute) : String :=
  logicalRef m.simplify_dimension_references attr

/-- `Mapper.split_logical`. -/
def Mapper.split_logical (_m : Mapper) (reference : String) :
    Option String × String :=
  match pySplitDot reference with
  | t :: c :: rest => (some t, joinDot (c :: rest))
  | _ => (none, reference)

/-- The override-lookup step of `Mapper.physical`
(`if self.cube.mappings: ... if mapped_ref:`): when the cube's override
table is truthy, look up the locale-suffixed logical reference and return
the raw value when it is found and itself truthy. -/
def Mapper.mappedRef (m : Mapper) (attr : Attribute) (lloc : Option String) :
    Option Ref :=
  if m.cube.mappings = [] then none
  else
    match dlookup (pyAddSfx (m.logical attr) "." lloc) m.cube.mappings with
    | some raw => if raw.truthy then some raw else none
    | none => none

/-- The table name chosen by the convention fallback of `Mapper.physical`:
the (optionally prefixed) dimension name when the attribute has a dimension
and the flat-simplification condition does not hold, else the fact name.
An empty `dimension_table_prefix` is falsy in Python and hence unused. -/
def conventionTable (m : Mapper) (attr : Attribute) : String :=
  match attr.dimension with
  | some dim =>
      if m.simplify_dimension_references && (dim.is_flat && !dim.has_details) then
        m.fact_name
      else
        match m.dim_table_pfx with
        | some p => if p = "" then dim.name else p ++ dim.name
        | none => dim.name
  | none => m.fact_name

/-- The convention fallback of `Mapper.physical` (`if not reference:`):
column is the attribute name with the locale suffix, table from
`conventionTable`, schema the Mapper's default schema. -/
def Mapper.conventionRef (m : Mapper) (attr : Attribute) (lloc : Option String) :
    PhysicalReference :=
  ⟨m.schema, some (conventionTable m attr), some (pyAddSfx attr.name "_" lloc)⟩

/-- `Mapper.physical` after the locale has been resolved: use the override
mapping coalesced with the fact name and default schema when one applies,
else the convention reference. -/
def Mapper.physicalResolved (m : Mapper) (attr : Attribute)
    (lloc : Option String) : Except String PhysicalReference :=
  match m.mappedRef attr lloc with
  | some raw => coalesce_physical raw (some m.fact_name) m.schema
  | none => .ok (m.conventionRef attr lloc)

/-- `Mapper.physical(attribute, locale=None)`. -/
def Mapper.physical (m : Mapper) (attr : Attribute) (locale : Option String) :
    Except String PhysicalReference :=
  m.physicalResolved attr (resolveLocale attr.locales locale)

/-- Keys of the table map and of the join work-set: `(schema, table)`. -/
abbrev TKey := Option String × Option String

/-- The master side of a join as a `(schema, table)` pair. -/
def masterKey (j : Join) : TKey := (j.master.schema, j.master.table)

/-- The detail side of a join as matched by `table_map` and
`relevant_joins`: `(detail.schema, alias or detail.table)`. -/
def detailKey (j : Join) : TKey := (j.detail.schema, pyOr j.alias j.detail.table)

/-- The `table_map` error condition: the join's detail table is falsy
(`None` or `""`) or equals the fact table name. -/
def badDetail (fact_name : String) (j : Join) : Bool :=
  match j.detail.table with
  | none => true
  | some t => (t == "") || (t == fact_name)

/-- The loop of `Mapper.table_map` over the join list: raise on a bad
detail, else map the master key to itself and the detail key to the real
detail table. -/
def tmLoop (fact_name : String) :
    List Join → List (TKey × TKey) → Except String (List (TKey × TKey))
  | [], tables => .ok tables
  | j :: rest, tables =>
      if badDetail fact_name j then
        .error "Detail table name should be present and should not be a fact table."
      else
        tmLoop fact_name rest
          (dinsert (dinsert tables (masterKey j) (masterKey j))
            (detailKey j) (j.detail.schema, j.detail.table))

/-- `Mapper.table_map`: start from the fact table mapped to itself, then
process every join in order. -/
def Mapper.table_map (m : Mapper) : Except String (List (TKey × TKey)) :=
  tmLoop m.fact_name m.joins
    (dinsert [] (m.schema, some m.fact_name) (m.schema, some m.fact_name))

/-- Set-style insert on a duplicate-free list (Python `set.add`). -/
def setAdd {α : Type} [DecidableEq α] (l : List α) (x : α) : List α :=
  if x ∈ l then l else x :: l

/-- Set-style deduplication (Python set construction from an iterable). -/
def dedupList {α : Type} [DecidableEq α] (l : List α) : List α :=
  l.foldl setAdd []

/-- The loop of `Mapper.relevant_joins`, with explicit fuel: pop a table,
scan the join list for the first join whose detail key equals it; on a
match append the join, add the join's master to the work-set unless it has
already been joined, and mark the popped table as joined.  `none` means the
fuel ran out; the termination theorem shows that `rjFuel` never does. -/
def rjLoop (joins : List Join) :
    Nat → List TKey → List TKey → List Join → Option (List Join)
  | 0, _, _, _ => none
  | _ + 1, [], _, acc => some acc
  | fuel + 1, t :: rest, joined, acc =>
      match joins.find? (fun j => decide (detailKey j = t)) with
      | none => rjLoop joins fuel rest joined acc
      | some j =>
          rjLoop joins fuel
            (if masterKey j ∈ joined then rest else setAdd rest (masterKey j))
            (setAdd joined t) (acc ++ [j])

/-- Fuel bound for `rjLoop`: two steps per distinct detail key plus one per
seed table, plus one. -/
def rjFuel (joins : List Join) (ws : List TKey) : Nat :=
  2 * (dedupList (joins.map detailKey)).length + ws.length + 1

/-- `Mapper.relevant_joins(attributes)`: seed the work-set with the distinct
`(schema, table)` pairs of the input references and run the traversal. -/
def Mapper.relevant_joins (m : Mapper) (attributes : List PhysicalReference) :
    Option (List Join) :=
  rjLoop m.joins
    (rjFuel m.joins (dedupList (attributes.map (fun r => (r.schema, r.table)))))
    (dedupList (attributes.map (fun r => (r.schema, r.table)))) [] []

/-- Termination measure for `rjLoop`: twice the number of distinct detail
keys not yet joined, plus the work-set size. -/
def rjMeasure (joins : List Join) (ws joined : List TKey) : Nat :=
  2 * ((dedupList (joins.map detailKey)).filter
        (fun x => !decide (x ∈ joined))).length + ws.length

/-! ### Concrete fixtures used by the claim theorems and witnesses -/

/-- A cube with fact table `sales` and no override mappings. -/
def exCube1 : Cube := ⟨"sales_cube", some "sales", [], [], [], []⟩

/-- The raw join of the spec's example: master `["sales", "date_id"]`,
detail `["dim_date", "id"]`, alias `"d"`. -/
def exRawJoin1 : RawJoin :=
  ⟨Ref.list [some "sales", some "date_id"], Ref.list [some "dim_date", some "id"],
   some "d"⟩

/-- The collected form of `exRawJoin1`. -/
def exJoin1 : Join :=
  ⟨⟨none, some "sales", some "date_id"⟩, ⟨none, some "dim_date", some "id"⟩,
   some "d"⟩

/-- The Mapper produced by `Mapper.make exCube1 none none none none none
[exRawJoin1]`. -/
def exM1 : Mapper := ⟨exCube1, none, none, "sales", none, true, none, [], [exJoin1]⟩

/-- A fact measure `amount` with no dimension and no locales. -/
def amountAttr : Attribute := ⟨"amount", none, some []⟩

/-- A non-flat dimension `date`. -/
def dateDim : Dimension := ⟨"date", false, false⟩

/-- The `date.month` attribute. -/
def dateMonthAttr : Attribute := ⟨"month", some dateDim, some []⟩

/-- A cube named `sales` with the override table
`{"date.month": "dim_date.month_num"}`. -/
def exCube2 : Cube := ⟨"sales", none, [("date.month", Ref.str "dim_date.month_num")], [], [], []⟩

/-- The Mapper over `exCube2` with no joins. -/
def exM2 : Mapper := ⟨exCube2, none, none, "sales", none, true, none, [], []⟩

/-- A cube whose override table maps `amount` to the falsy raw value `""`. -/
def cxCube2 : Cube := ⟨"sales", none, [("amount", Ref.str "")], [], [], []⟩

/-- The Mapper over `cxCube2`. -/
def cxM2 : Mapper := ⟨cxCube2, none, none, "sales", none, true, none, [], []⟩

/-- An attribute whose only declared locale is the empty string. -/
def cxAttr3 : Attribute := ⟨"amount", none, some [""]⟩

/-- `exJoin1` with the alias present but empty (falsy in Python). -/
def cxJoin1 : Join :=
  ⟨⟨none, some "sales", some "date_id"⟩, ⟨none, some "dim_date", some "id"⟩,
   some ""⟩

/-- A Mapper whose only join carries the empty alias. -/
def cxM1 : Mapper := ⟨exCube1, none, none, "sales", none, true, none, [], [cxJoin1]⟩

/-- A join whose detail table equals the fact table `sales`. -/
def badJoin : Join :=
  ⟨⟨none, some "sales", some "id"⟩, ⟨none, some "sales", some "id"⟩, none⟩

/-- A Mapper holding `badJoin`, on which `table_map` must fail. -/
def badM : Mapper := ⟨exCube1, none, none, "sales", none, true, none, [], [badJoin]⟩

/-- The table map computed for `exM1`. -/
def tblEx : List (TKey × TKey) :=
  [((none, some "d"), (none, some "dim_date")),
   ((none, some "sales"), (none, some "sales"))]

/-- A minimal cube for the mappings-argument hyperproperty witness. -/
def wCube : Cube := ⟨"sales", none, [], [], [], []⟩

/-- Mapper over `wCube` built with constructor argument `mappings = none`. -/
def m1w : Mapper := ⟨wCube, none, none, "sales", none, true, none, [], []⟩

/-- Mapper over `wCube` built with a non-trivial `mappings` argument. -/
def m2w : Mapper :=
  ⟨wCube, some [("x", Ref.str "y")], none, "sales", none, true, none, [], []⟩

/-! ### Helper lemmas about the set/dict primitives -/

theorem mem_setAdd {α : Type} [DecidableEq α] {l : List α} {x y : α} :
    y ∈ setAdd l x ↔ y = x ∨ y ∈ l := by
  unfold setAdd
  split
  · rename_i h
    constructor
    · exact Or.inr
    · rintro (rfl | hy)
      · exact h
      · exact hy
  · exact List.mem_cons

theorem setAdd_nodup {α : Type} [DecidableEq α] {l : List α} (h : l.Nodup) (x : α) :
    (setAdd l x).Nodup := by
  unfold setAdd
  split
  · exact h
  · rename_i hx
    exact List.nodup_cons.mpr ⟨hx, h⟩

theorem setAdd_length_le {α : Type} [DecidableEq α] (l : List α) (x : α) :
    (setAdd l x).length ≤ l.length + 1 := by
  unfold setAdd
  split
  · exact Nat.le_succ _
  · simp

theorem mem_foldl_setAdd {α : Type} [DecidableEq α] :
    ∀ (l acc : List α) (y : α), y ∈ l.foldl setAdd acc ↔ y ∈ acc ∨ y ∈ l := by
  intro l
  induction l with
  | nil => intro acc y; simp
  | cons x rest ih =>
      intro acc y
      simp only [List.foldl_cons]
      rw [ih, mem_setAdd]
      simp only [List.mem_cons]
      tauto

theorem mem_dedupList {α : Type} [DecidableEq α] {l : List α} {y : α} :
    y ∈ dedupList l ↔ y ∈ l := by
  unfold dedupList
  rw [mem_foldl_setAdd]
  simp

theorem foldl_setAdd_nodup {α : Type} [DecidableEq α] :
    ∀ (l acc : List α), acc.Nodup → (l.foldl setAdd acc).Nodup := by
  intro l
  induction l with
  | nil => intro acc h; exact h
  | cons x rest ih => intro acc h; exact ih _ (setAdd_nodup h x)

theorem dedupList_nodup {α : Type} [DecidableEq α] (l : List α) :
    (dedupList l).Nodup :=
  foldl_setAdd_nodup l [] List.nodup_nil

theorem length_filter_ne_lt {α : Type} [DecidableEq α] {l : List α} {t : α}
    (ht : t ∈ l) :
    (l.filter (fun x => !decide (x = t))).length < l.length := by
  induction l with
  | nil => exact absurd ht (List.not_mem_nil t)
  | cons a rest ih =>
      rcases List.mem_cons.mp ht with rfl | hrest
      · have hle := List.length_filter_le (fun x => !decide (x = t)) rest
        simp only [List.filter_cons, decide_True, Bool.not_true, Bool.false_eq_true,
          if_false, List.length_cons]
        omega
      · rw [List.filter_cons]
        split
        · simp only [List.length_cons]
          exact Nat.succ_lt_succ (ih hrest)
        · exact Nat.lt_succ_of_le (Nat.le_of_lt (ih hrest))

theorem dlookup_dinsert_self {α β : Type} [DecidableEq α] (d : List (α × β))
    (k : α) (v : β) : dlookup k (dinsert d k v) = some v := by
  simp [dlookup, dinsert]

theorem dlookup_filter_ne {α β : Type} [DecidableEq α] {k k2 : α} (hne : k2 ≠ k) :
    ∀ (d : List (α × β)),
      dlookup k (d.filter (fun p => !decide (p.1 = k2))) = dlookup k d := by
  intro d
  induction d with
  | nil => rfl
  | cons ab d ih =>
      obtain ⟨a, b⟩ := ab
      rw [List.filter_cons]
      by_cases hak : a = k2
      · subst hak
        simp [dlookup, hne, ih]
      · simp [dlookup, hak, ih]

theorem dlookup_dinsert_isSome {α β : Type} [DecidableEq α] {d : List (α × β)}
    {k k2 : α} {v : β} (h : (dlookup k d).isSome = true) :
    (dlookup k (dinsert d k2 v)).isSome = true := by
  by_cases hk : k2 = k
  · subst hk
    rw [dlookup_dinsert_self]
    rfl
  · unfold dinsert
    rw [show dlookup k ((k2, v) :: List.filter (fun p => !decide (p.1 = k2)) d) =
        dlookup k (List.filter (fun p => !decide (p.1 = k2)) d) from by
      simp [dlookup, hk]]
    rw [dlookup_filter_ne hk]
    exact h

/-! ### Claim theorems -/

/-- C5 counterexample: the claim says an explicitly supplied schema value
always takes precedence over the default, but `coalesce_physical` uses
Python `or`, so a supplied empty-string schema falls back to the default
schema `"S"` instead of being returned. -/
theorem c5_counterexample :
    coalesce_physical (Ref.dict (some "") (some "t") (some "c")) (some "T") (some "S") =
      .ok ⟨some "S", some "t", some "c"⟩ ∧
    (some "S" : Option String) ≠ some "" := by
  decide

/-- C5 (amended): for every keyed-record input, `coalesce_physical` returns
a reference whose column is the record's column value, and whose schema and
table are the explicitly supplied record values whenever they are supplied
and non-empty; a missing or empty-string schema/table falls back to
`defaultSchema`/`defaultTable`. -/
theorem c5_amended :
    ∀ (sc t c dt ds : Option String),
      ∃ r, coalesce_physical (Ref.dict sc t c) dt ds = .ok r ∧
        r.column = c ∧
        (∀ s, sc = some s → s ≠ "" → r.schema = some s) ∧
        ((sc = none ∨ sc = some "") → r.schema = ds) ∧
        (∀ s, t = some s → s ≠ "" → r.table = some s) ∧
        ((t = none ∨ t = some "") → r.table = dt) := by
  intro sc t c dt ds
  refine ⟨⟨pyOr sc ds, pyOr t dt, c⟩, rfl, rfl, ?_, ?_, ?_, ?_⟩
  · intro s hs hne
    subst hs
    simp [pyOr, hne]
  · rintro (rfl | rfl) <;> simp [pyOr]
  · intro s hs hne
    subst hs
    simp [pyOr, hne]
  · rintro (rfl | rfl) <;> simp [pyOr]

/-- C5 witness: the amended theorem evaluated at the record
`{schema: "x", column: "c"}` with defaults `"T"`/`"S"`. -/
theorem c5_amended_witness :
    ∃ r, coalesce_physical (Ref.dict (some "x") none (some "c")) (some "T") (some "S") =
        .ok r ∧ r.schema = some "x" ∧ r.table = some "T" ∧ r.column = some "c" := by
  obtain ⟨r, h1, hcol, hs, _, _, htd⟩ :=
    c5_amended (some "x") none (some "c") (some "T") (some "S")
  exact ⟨r, h1, hs "x" rfl (by decide), htd (Or.inl rfl), hcol⟩

/-- C7: coalescing is idempotent on its own output — any successful result
`(schema, table, column)`, re-fed as a 3-element list with arbitrary
defaults, is returned unchanged. -/
theorem c7_coalesce_idempotent :
    ∀ (x : Ref) (dt ds dt2 ds2 : Option String) (r : PhysicalReference),
      coalesce_physical x dt ds = .ok r →
      coalesce_physical (Ref.list [r.schema, r.table, r.column]) dt2 ds2 = .ok r := by
  intro x dt ds dt2 ds2 r _
  cases r
  rfl

/-- C7 witness: idempotence at the concrete input `"t.c"`. -/
theorem c7_coalesce_idempotent_witness :
    coalesce_physical (Ref.str "t.c") (some "T") (some "S") =
      .ok ⟨some "S", some "t", some "c"⟩ ∧
    coalesce_physical (Ref.list [some "S", some "t", some "c"]) none none =
      .ok ⟨some "S", some "t", some "c"⟩ := by
  constructor
  · decide
  · exact c7_coalesce_idempotent (Ref.str "t.c") (some "T") (some "S") none none
      ⟨some "S", some "t", some "c"⟩ (by decide)

/-- C2 counterexample: the claim says any override entry found for the
logical reference is used, but `physical` guards the entry with Python
truthiness (`if mapped_ref:`), so the falsy entry `"amount" -> ""` is
skipped and the convention fallback is returned instead of the coalescing
of `""` (which would have column `""`). -/
theorem c2_counterexample :
    Mapper.make cxCube2 none none none none none [] = .ok cxM2 ∧
    cxM2.cube.mappings = [("amount", Ref.str "")] ∧
    dlookup "amount" cxM2.cube.mappings = some (Ref.str "") ∧
    cxM2.logical amountAttr = "amount" ∧
    resolveLocale amountAttr.locales none = none ∧
    cxM2.physical amountAttr none = .ok ⟨none, some "sales", some "amount"⟩ ∧
    cxM2.physical amountAttr none ≠
      coalesce_physical (Ref.str "") (some cxM2.fact_name) cxM2.schema := by
  decide

/-- C2 (amended): when the cube's override table is non-empty and contains
a truthy entry for the locale-suffixed logical reference, `physical`
returns the coalescing of that entry's raw value with the Mapper's fact
table name as the default table and the configured default schema. -/
theorem c2_amended :
    ∀ (m : Mapper) (attr : Attribute) (locale : Option String) (raw : Ref),
      m.cube.mappings ≠ [] →
      dlookup (pyAddSfx (m.logical attr) "." (resolveLocale attr.locales locale))
        m.cube.mappings = some raw →
      raw.truthy = true →
      m.physical attr locale = coalesce_physical raw (some m.fact_name) m.schema := by
  intro m attr locale raw hne hlk htr
  have hmr : m.mappedRef attr (resolveLocale attr.locales locale) = some raw := by
    unfold Mapper.mappedRef
    rw [if_neg hne, hlk]
    simp [htr]
  show m.physicalResolved attr (resolveLocale attr.locales locale) = _
  unfold Mapper.physicalResolved
  rw [hmr]

/-- C2 witness: the override `{"date.month": "dim_date.month_num"}` with
fact name `"sales"` resolves `date.month` to `(none, dim_date, month_num)`. -/
theorem c2_amended_witness :
    exM2.physical dateMonthAttr none =
      coalesce_physical (Ref.str "dim_date.month_num") (some exM2.fact_name) exM2.schema ∧
    coalesce_physical (Ref.str "dim_date.month_num") (some "sales") none =
      .ok ⟨none, some "dim_date", some "month_num"⟩ := by
  constructor
  · exact c2_amended exM2 dateMonthAttr none (Ref.str "dim_date.month_num")
      (by decide) (by decide) (by decide)
  · decide

/-- C3 counterexample: the claim appends `"_" + locale` whenever the
resolved locale is non-none, but Python tests truthiness (`if locale:`), so
an attribute whose resolved locale is the empty string gets the bare column
name `"amount"` rather than the claimed `"amount_"`. -/
theorem c3_counterexample :
    resolveLocale cxAttr3.locales none = some "" ∧
    exM1.cube.mappings = [] ∧
    exM1.physical cxAttr3 none = .ok ⟨none, some "sales", some "amount"⟩ ∧
    some "amount" ≠ some (cxAttr3.name ++ "_" ++ "") := by
  decide

/-- C3 (amended): with no override table or no matching entry, `physical`
returns schema = the configured default schema; column = the attribute
name, with `"_" + locale` appended when the resolved locale is non-none
and non-empty; table = the (optionally prefixed) dimension name when the
attribute has a dimension for which the flat-simplification condition
fails, else the Mapper's fact table name. -/
theorem c3_amended :
    ∀ (m : Mapper) (attr : Attribute) (locale : Option String),
      (m.cube.mappings = [] ∨
        dlookup (pyAddSfx (m.logical attr) "." (resolveLocale attr.locales locale))
          m.cube.mappings = none) →
      ∃ r, m.physical attr locale = .ok r ∧
        r.schema = m.schema ∧
        (∀ l, resolveLocale attr.locales locale = some l → l ≠ "" →
          r.column = some (attr.name ++ "_" ++ l)) ∧
        ((resolveLocale attr.locales locale = none ∨
            resolveLocale attr.locales locale = some "") →
          r.column = some attr.name) ∧
        (∀ dim, attr.dimension = some dim →
          (m.simplify_dimension_references && (dim.is_flat && !dim.has_details)) = false →
          (∀ p, m.dim_table_pfx = some p → p ≠ "" → r.table = some (p ++ dim.name)) ∧
          ((m.dim_table_pfx = none ∨ m.dim_table_pfx = some "") →
            r.table = some dim.name)) ∧
        ((attr.dimension = none ∨
            ∃ dim, attr.dimension = some dim ∧
              (m.simplify_dimension_references && (dim.is_flat && !dim.has_details)) = true) →
          r.table = some m.fact_name) := by
  intro m attr locale hyp
  have hmr : m.mappedRef attr (resolveLocale attr.locales locale) = none := by
    unfold Mapper.mappedRef
    by_cases hemp : m.cube.mappings = []
    · rw [if_pos hemp]
    · rw [if_neg hemp]
      rcases hyp with hemp2 | hlk
      · exact absurd hemp2 hemp
      · rw [hlk]
  refine ⟨m.conventionRef attr (resolveLocale attr.locales locale), ?_, rfl, ?_, ?_, ?_, ?_⟩
  · show m.physicalResolved attr (resolveLocale attr.locales locale) = _
    unfold Mapper.physicalResolved
    rw [hmr]
  · intro l hl hlne
    show some (pyAddSfx attr.name "_" (resolveLocale attr.locales locale)) = _
    rw [hl]
    simp [pyAddSfx, hlne]
  · intro hl
    rcases hl with hl | hl <;>
      (show some (pyAddSfx attr.name "_" (resolveLocale attr.locales locale)) = _
       rw [hl]
       simp [pyAddSfx])
  · intro dim hdim hcond
    constructor
    · intro p hp hpne
      show some (conventionTable m attr) = _
      simp [conventionTable, hdim, hp, hcond, hpne]
    · intro hp
      rcases hp with hp | hp <;>
        (show some (conventionTable m attr) = _
         simp [conventionTable, hdim, hp, hcond])
  · intro hfact
    rcases hfact with hnone | hdc
    · show some (conventionTable m attr) = _
      simp [conventionTable, hnone]
    · obtain ⟨dim, hdim, hcond⟩ := hdc
      show some (conventionTable m attr) = _
      simp [conventionTable, hdim, hcond]

/-- C3 witness: the convention fallback on the fact measure `amount` with
fact name `"sales"` and no override table. -/
theorem c3_amended_witness :
    ∃ r, exM1.physical amountAttr none = .ok r ∧
      r.schema = none ∧ r.table = some "sales" ∧ r.column = some "amount" := by
  obtain ⟨r, h1, hs, _, hcol, _, hfact⟩ :=
    c3_amended exM1 amountAttr none (Or.inl (by decide))
  exact ⟨r, h1, hs, hfact (Or.inl (by decide)), hcol (Or.inl (by decide))⟩

/-- C4: the locale fix-up of `physical` — a localizable attribute uses the
requested locale when declared, else its first declared locale; an
attribute with no locales (or whose locale inspection raises, modelled by
`locales = none`) resolves to none regardless of the request; and
`physical` depends on the requested locale only through this resolution. -/
theorem c4_locale_resolution :
    (∀ (l0 : String) (ls : List String) (r : String),
      (r ∈ l0 :: ls → resolveLocale (some (l0 :: ls)) (some r) = some r) ∧
      (r ∉ l0 :: ls → resolveLocale (some (l0 :: ls)) (some r) = some l0)) ∧
    (∀ (l0 : String) (ls : List String), resolveLocale (some (l0 :: ls)) none = some l0) ∧
    (∀ (req : Option String), resolveLocale (some []) req = none) ∧
    (∀ (req : Option String), resolveLocale none req = none) ∧
    (∀ (m : Mapper) (attr : Attribute) (req1 req2 : Option String),
      resolveLocale attr.locales req1 = resolveLocale attr.locales req2 →
      m.physical attr req1 = m.physical attr req2) := by
  refine ⟨?_, ?_, ?_, ?_, ?_⟩
  · intro l0 ls r
    constructor
    · intro h; simp [resolveLocale, h]
    · intro h; simp [resolveLocale, h]
  · intro l0 ls; rfl
  · intro req; rfl
  · intro req; rfl
  · intro m attr req1 req2 h
    show m.physicalResolved attr (resolveLocale attr.locales req1) =
        m.physicalResolved attr (resolveLocale attr.locales req2)
    rw [h]

/-- C4 witness: resolution with declared locales `["en", "fr"]`, and the
invariance of `physical` under requests with equal resolutions. -/
theorem c4_locale_resolution_witness :
    resolveLocale (some ["en", "fr"]) (some "fr") = some "fr" ∧
    resolveLocale (some ["en", "fr"]) (some "de") = some "en" ∧
    exM1.physical amountAttr (some "fr") = exM1.physical amountAttr (some "de") := by
  refine ⟨?_, ?_, ?_⟩
  · exact (c4_locale_resolution.1 "en" ["fr"] "fr").1 (by decide)
  · exact (c4_locale_resolution.1 "en" ["fr"] "de").2 (by decide)
  · exact c4_locale_resolution.2.2.2.2 exM1 amountAttr (some "fr") (some "de") (by decide)

theorem dlookup_dinsert_ne {α β : Type} [DecidableEq α] {d : List (α × β)}
    {k k2 : α} (hne : k2 ≠ k) (v : β) :
    dlookup k (dinsert d k2 v) = dlookup k d := by
  unfold dinsert
  rw [show dlookup k ((k2, v) :: List.filter (fun p => !decide (p.1 = k2)) d) =
      dlookup k (List.filter (fun p => !decide (p.1 = k2)) d) from by simp [dlookup, hne]]
  exact dlookup_filter_ne hne d

theorem tmLoop_cons_bad {fn : String} {j : Join} {rest : List Join}
    {tables : List (TKey × TKey)} (hb : badDetail fn j = true) :
    tmLoop fn (j :: rest) tables =
      .error "Detail table name should be present and should not be a fact table." := by
  simp [tmLoop, hb]

theorem tmLoop_cons_good {fn : String} {j : Join} {rest : List Join}
    {tables : List (TKey × TKey)} (hb : badDetail fn j = false) :
    tmLoop fn (j :: rest) tables =
      tmLoop fn rest (dinsert (dinsert tables (masterKey j) (masterKey j))
        (detailKey j) (j.detail.schema, j.detail.table)) := by
  simp [tmLoop, hb]

theorem tmLoop_error_iff (fn : String) :
    ∀ (js : List Join) (tables : List (TKey × TKey)),
      (∃ e, tmLoop fn js tables = .error e) ↔ ∃ j ∈ js, badDetail fn j = true := by
  intro js
  induction js with
  | nil =>
      intro tables
      simp [tmLoop]
  | cons j rest ih =>
      intro tables
      cases hb : badDetail fn j with
      | true =>
          rw [tmLoop_cons_bad hb]
          constructor
          · intro _
            exact ⟨j, List.mem_cons_self j rest, hb⟩
          · intro _
            exact ⟨_, rfl⟩
      | false =>
          rw [tmLoop_cons_good hb, ih]
          constructor
          · rintro ⟨j2, hj2, hb2⟩
            exact ⟨j2, List.mem_cons_of_mem j hj2, hb2⟩
          · rintro ⟨j2, hj2, hb2⟩
            rcases List.mem_cons.mp hj2 with rfl | h2
            · rw [hb] at hb2
              exact absurd hb2 (by simp)
            · exact ⟨j2, h2, hb2⟩

theorem tmLoop_ok_mono (fn : String) :
    ∀ (js : List Join) (tables out : List (TKey × TKey)),
      tmLoop fn js tables = .ok out →
      ∀ k, (dlookup k tables).isSome = true → (dlookup k out).isSome = true := by
  intro js
  induction js with
  | nil =>
      intro tables out h k hk
      have heq : tables = out := by simpa [tmLoop] using h
      rw [← heq]
      exact hk
  | cons j rest ih =>
      intro tables out h k hk
      cases hb : badDetail fn j with
      | true =>
          rw [tmLoop_cons_bad hb] at h
          exact absurd h (by simp)
      | false =>
          rw [tmLoop_cons_good hb] at h
          exact ih _ out h k (dlookup_dinsert_isSome (dlookup_dinsert_isSome hk))

theorem tmLoop_ok_mem (fn : String) :
    ∀ (js : List Join) (tables out : List (TKey × TKey)),
      tmLoop fn js tables = .ok out →
      ∀ j ∈ js, (dlookup (masterKey j) out).isSome = true ∧
        (dlookup (detailKey j) out).isSome = true := by
  intro js
  induction js with
  | nil =>
      intro tables out h j hj
      exact absurd hj (List.not_mem_nil j)
  | cons j0 rest ih =>
      intro tables out h j hj
      cases hb : badDetail fn j0 with
      | true =>
          rw [tmLoop_cons_bad hb] at h
          exact absurd h (by simp)
      | false =>
          rw [tmLoop_cons_good hb] at h
          rcases List.mem_cons.mp hj with rfl | hmem
          · constructor
            · apply tmLoop_ok_mono fn rest _ out h
              by_cases hmd : masterKey j = detailKey j
              · rw [hmd, dlookup_dinsert_self]
                rfl
              · rw [dlookup_dinsert_ne (fun h2 => hmd h2.symm), dlookup_dinsert_self]
                rfl
            · apply tmLoop_ok_mono fn rest _ out h
              rw [dlookup_dinsert_self]
              rfl
          · exact ih _ out h j hmem

/-- C6: `table_map` fails exactly when some collected join's detail table
is missing/empty or equals the fact table name; on failure only the error
is returned (never a mapping; `table_map` is a pure function of the
unchanged Mapper), and on success the mapping has an entry for the fact
table and for every join's master and detail key. -/
theorem c6_table_map_error_iff :
    ∀ m : Mapper,
      ((∃ e, m.table_map = .error e) ↔ ∃ j ∈ m.joins, badDetail m.fact_name j = true) ∧
      (∀ tbl, m.table_map = .ok tbl →
        (dlookup (m.schema, some m.fact_name) tbl).isSome = true ∧
        ∀ j ∈ m.joins, (dlookup (masterKey j) tbl).isSome = true ∧
          (dlookup (detailKey j) tbl).isSome = true) ∧
      (∀ e, m.table_map = .error e → ∀ tbl, m.table_map ≠ .ok tbl) := by
  intro m
  unfold Mapper.table_map
  refine ⟨?_, ?_, ?_⟩
  · exact tmLoop_error_iff m.fact_name m.joins _
  · intro tbl h
    constructor
    · exact tmLoop_ok_mono m.fact_name m.joins _ tbl h _
        (by rw [dlookup_dinsert_self]; rfl)
    · exact tmLoop_ok_mem m.fact_name m.joins _ tbl h
  · intro e he tbl
    rw [he]
    simp

/-- C6 witness: on `badM` (detail table = fact table) the map fails, and on
`exM1` the computed map `tblEx` contains the fact, master and detail keys. -/
theorem c6_table_map_error_iff_witness :
    (∃ e, badM.table_map = .error e) ∧
    (dlookup ((none : Option String), (some "sales" : Option String)) tblEx).isSome = true ∧
    (dlookup (masterKey exJoin1) tblEx).isSome = true ∧
    (dlookup (detailKey exJoin1) tblEx).isSome = true := by
  refine ⟨?_, ?_⟩
  · exact (c6_table_map_error_iff badM).1.mpr ⟨badJoin, by decide, by decide⟩
  · have h := (c6_table_map_error_iff exM1).2.1 tblEx (by decide)
    exact ⟨h.1, (h.2 exJoin1 (by decide)).1, (h.2 exJoin1 (by decide)).2⟩

theorem rjLoop_zero (joins : List Join) (ws joined : List TKey) (acc : List Join) :
    rjLoop joins 0 ws joined acc = none := rfl

theorem rjLoop_nil (joins : List Join) (n : Nat) (joined : List TKey) (acc : List Join) :
    rjLoop joins (n + 1) [] joined acc = some acc := rfl

theorem rjLoop_cons (joins : List Join) (n : Nat) (t : TKey)
    (rest joined : List TKey) (acc : List Join) :
    rjLoop joins (n + 1) (t :: rest) joined acc =
      match joins.find? (fun j2 => decide (detailKey j2 = t)) with
      | none => rjLoop joins n rest joined acc
      | some j =>
          rjLoop joins n
            (if masterKey j ∈ joined then rest else setAdd rest (masterKey j))
            (setAdd joined t) (acc ++ [j]) := rfl

theorem rjLoop_cons_none {joins : List Join} {n : Nat} {t : TKey}
    {rest joined : List TKey} {acc : List Join}
    (hfind : joins.find? (fun j2 => decide (detailKey j2 = t)) = none) :
    rjLoop joins (n + 1) (t :: rest) joined acc = rjLoop joins n rest joined acc := by
  rw [rjLoop_cons, hfind]

theorem rjLoop_cons_some {joins : List Join} {n : Nat} {t : TKey}
    {rest joined : List TKey} {acc : List Join} {j : Join}
    (hfind : joins.find? (fun j2 => decide (detailKey j2 = t)) = some j) :
    rjLoop joins (n + 1) (t :: rest) joined acc =
      rjLoop joins n
        (if masterKey j ∈ joined then rest else setAdd rest (masterKey j))
        (setAdd joined t) (acc ++ [j]) := by
  rw [rjLoop_cons, hfind]

theorem length_filter_mono {α : Type} {p q : α → Bool}
    (hsub : ∀ x, q x = true → p x = true) :
    ∀ l : List α, (l.filter q).length ≤ (l.filter p).length := by
  intro l
  induction l with
  | nil => exact Nat.le_refl 0
  | cons a rest ih =>
      rw [List.filter_cons, List.filter_cons]
      by_cases hq : q a = true
      · rw [if_pos hq, if_pos (hsub a hq)]
        simp only [List.length_cons]
        exact Nat.succ_le_succ ih
      · rw [if_neg hq]
        by_cases hp : p a = true
        · rw [if_pos hp]
          simp only [List.length_cons]
          exact Nat.le_succ_of_le ih
        · rw [if_neg hp]
          exact ih

theorem length_filter_strict {α : Type} {p q : α → Bool}
    (hsub : ∀ x, q x = true → p x = true) {t : α} :
    ∀ l : List α, t ∈ l → p t = true → q t = false →
      (l.filter q).length < (l.filter p).length := by
  intro l
  induction l with
  | nil => intro ht; exact absurd ht (List.not_mem_nil t)
  | cons a rest ih =>
      intro ht hpt hqt
      rw [List.filter_cons, List.filter_cons]
      rcases List.mem_cons.mp ht with rfl | hrest
      · rw [if_pos hpt, if_neg (by simp [hqt])]
        simp only [List.length_cons]
        exact Nat.lt_succ_of_le (length_filter_mono hsub rest)
      · by_cases hq : q a = true
        · rw [if_pos hq, if_pos (hsub a hq)]
          simp only [List.length_cons]
          exact Nat.succ_lt_succ (ih hrest hpt hqt)
        · rw [if_neg hq]
          by_cases hp : p a = true
          · rw [if_pos hp]
            simp only [List.length_cons]
            exact Nat.lt_succ_of_le (Nat.le_of_lt (ih hrest hpt hqt))
          · rw [if_neg hp]
            exact ih hrest hpt hqt

theorem rjLoop_sound :
    ∀ (fuel : Nat) (joins : List Join) (ws joined : List TKey) (acc out : List Join),
      rjLoop joins fuel ws joined acc = some out →
      ∀ j ∈ out, j ∈ acc ∨ (j ∈ joins ∧
        joins.find? (fun j2 => decide (detailKey j2 = detailKey j)) = some j) := by
  intro fuel
  induction fuel with
  | zero =>
      intro joins ws joined acc out h
      rw [rjLoop_zero] at h
      exact absurd h (by simp)
  | succ n ih =>
      intro joins ws joined acc out h j hj
      cases ws with
      | nil =>
          rw [rjLoop_nil] at h
          have heq : acc = out := by simpa using h
          exact Or.inl (heq ▸ hj)
      | cons t rest =>
          cases hfind : joins.find? (fun j2 => decide (detailKey j2 = t)) with
          | none =>
              rw [rjLoop_cons_none hfind] at h
              exact ih joins rest joined acc out h j hj
          | some j0 =>
              rw [rjLoop_cons_some hfind] at h
              rcases ih joins _ _ _ out h j hj with hacc | hgood
              · rcases List.mem_append.mp hacc with h1 | h2
                · exact Or.inl h1
                · have hj0 : j = j0 := by simpa using h2
                  subst hj0
                  refine Or.inr ⟨List.mem_of_find?_eq_some hfind, ?_⟩
                  have hpj := List.find?_some hfind
                  have hdk : detailKey j = t := by simpa using hpj
                  rw [hdk]
                  exact hfind
              · exact Or.inr hgood

theorem rjLoop_total :
    ∀ (fuel : Nat) (joins : List Join) (ws joined : List TKey) (acc : List Join),
      rjMeasure joins ws joined < fuel →
      ws.Nodup →
      (∀ t ∈ ws, t ∈ joined →
        ∀ j, joins.find? (fun j2 => decide (detailKey j2 = t)) = some j →
          masterKey j = t) →
      (rjLoop joins fuel ws joined acc).isSome = true := by
  intro fuel
  induction fuel with
  | zero =>
      intro joins ws joined acc hm _ _
      exact absurd hm (Nat.not_lt_zero _)
  | succ n ih =>
      intro joins ws joined acc hm hnd hinv
      cases ws with
      | nil =>
          rw [rjLoop_nil]
          rfl
      | cons t rest =>
          have hndr : rest.Nodup := (List.nodup_cons.mp hnd).2
          have htnr : t ∉ rest := (List.nodup_cons.mp hnd).1
          cases hfind : joins.find? (fun j2 => decide (detailKey j2 = t)) with
          | none =>
              rw [rjLoop_cons_none hfind]
              apply ih joins rest joined acc
              · unfold rjMeasure at hm ⊢
                simp only [List.length_cons] at hm
                omega
              · exact hndr
              · intro u hu huj j2 hf
                exact hinv u (List.mem_cons_of_mem t hu) huj j2 hf
          | some j =>
              have hpj := List.find?_some hfind
              have hdk : detailKey j = t := by simpa using hpj
              have hjmem : j ∈ joins := List.mem_of_find?_eq_some hfind
              rw [rjLoop_cons_some hfind]
              by_cases ht : t ∈ joined
              · have hmk : masterKey j = t := hinv t (List.mem_cons_self t rest) ht j hfind
                have hmem : masterKey j ∈ joined := by rw [hmk]; exact ht
                rw [if_pos hmem]
                have hja : setAdd joined t = joined := by
                  unfold setAdd
                  rw [if_pos ht]
                rw [hja]
                apply ih joins rest joined (acc ++ [j])
                · unfold rjMeasure at hm ⊢
                  simp only [List.length_cons] at hm
                  omega
                · exact hndr
                · intro u hu huj j2 hf
                  exact hinv u (List.mem_cons_of_mem t hu) huj j2 hf
              · have htD : t ∈ dedupList (joins.map detailKey) := by
                  rw [mem_dedupList, ← hdk]
                  exact List.mem_map_of_mem detailKey hjmem
                have hsJ : setAdd joined t = t :: joined := by
                  unfold setAdd
                  rw [if_neg ht]
                have hsub : ∀ x : TKey, (!decide (x ∈ t :: joined)) = true →
                    (!decide (x ∈ joined)) = true := by
                  intro x hx
                  simp only [Bool.not_eq_true', decide_eq_false_iff_not] at hx ⊢
                  exact fun h2 => hx (List.mem_cons_of_mem t h2)
                have hflt : ((dedupList (joins.map detailKey)).filter
                      (fun x => !decide (x ∈ t :: joined))).length <
                    ((dedupList (joins.map detailKey)).filter
                      (fun x => !decide (x ∈ joined))).length := by
                  apply length_filter_strict hsub _ htD
                  · simp [ht]
                  · simp
                rw [hsJ]
                by_cases hmj : masterKey j ∈ joined
                · rw [if_pos hmj]
                  apply ih joins rest (t :: joined) (acc ++ [j])
                  · unfold rjMeasure at hm ⊢
                    simp only [List.length_cons] at hm
                    omega
                  · exact hndr
                  · intro u hu huj j2 hf
                    rcases List.mem_cons.mp huj with rfl | huj2
                    · exact absurd hu htnr
                    · exact hinv u (List.mem_cons_of_mem t hu) huj2 j2 hf
                · rw [if_neg hmj]
                  apply ih joins (setAdd rest (masterKey j)) (t :: joined) (acc ++ [j])
                  · have hlen := setAdd_length_le rest (masterKey j)
                    unfold rjMeasure at hm ⊢
                    simp only [List.length_cons] at hm
                    omega
                  · exact setAdd_nodup hndr (masterKey j)
                  · intro u hu huj j2 hf
                    rcases mem_setAdd.mp hu with rfl | hu2
                    · rcases List.mem_cons.mp huj with hut | huj2
                      · rw [hut] at hf
                        have hj2 : j = j2 := by
                          rw [hfind] at hf
                          exact Option.some.inj hf
                        rw [← hj2]
                      · exact absurd huj2 hmj
                    · rcases List.mem_cons.mp huj with rfl | huj2
                      · exact absurd hu2 htnr
                      · exact hinv u (List.mem_cons_of_mem t hu2) huj2 j2 hf

/-- C1 counterexample: the claim's detail key is "(detail.schema, alias if
present else detail.table)", but the source computes `alias or
detail.table` with Python truthiness.  For a join whose alias is present
but empty, a reference with the real detail table name `"dim_date"` still
matches (the claim predicts only the alias `""` could), yielding the join. -/
theorem c1_counterexample :
    cxM1.joins = [cxJoin1] ∧
    cxJoin1.alias = some "" ∧
    cxM1.relevant_joins [⟨none, some "dim_date", some "month"⟩] = some [cxJoin1] ∧
    (some "dim_date" : Option String) ≠ cxJoin1.alias := by
  decide

/-- C1 (amended): with the detail key read as `(detail.schema, alias if
present and non-empty else detail.table)` (`detailKey`), every join
returned by `relevant_joins` is a member of the Mapper's join list and is
the first join in collection order whose detail key equals its own detail
key (first match wins); and on the constructed example Mapper whose only
join has detail table `dim_date` and alias `d`, an input reference with
table `dim_date` yields no join while one with table `d` yields exactly
that join. -/
theorem c1_amended :
    (∀ (m : Mapper) (refs : List PhysicalReference) (out : List Join),
      m.relevant_joins refs = some out →
      ∀ j ∈ out, j ∈ m.joins ∧
        m.joins.find? (fun j2 => decide (detailKey j2 = detailKey j)) = some j) ∧
    Mapper.make exCube1 none none none none none [exRawJoin1] = .ok exM1 ∧
    exM1.relevant_joins [⟨none, some "dim_date", some "month"⟩] = some [] ∧
    exM1.relevant_joins [⟨none, some "d", some "month"⟩] = some [exJoin1] := by
  refine ⟨?_, by decide, by decide, by decide⟩
  intro m refs out h j hj
  unfold Mapper.relevant_joins at h
  rcases rjLoop_sound _ _ _ _ _ _ h j hj with habs | hgood
  · exact absurd habs (List.not_mem_nil j)
  · exact hgood

/-- C1 witness: the join returned for the reference with table `d` is in
the join list and is its own first detail-key match. -/
theorem c1_amended_witness :
    exJoin1 ∈ exM1.joins ∧
    exM1.joins.find? (fun j2 => decide (detailKey j2 = detailKey exJoin1)) =
      some exJoin1 :=
  c1_amended.1 exM1 [⟨none, some "d", some "month"⟩] [exJoin1] (by decide)
    exJoin1 (by decide)

/-- C10: `relevant_joins` terminates on every Mapper and every finite input
reference list — the fuelled loop always completes within its fuel bound
(once a table has matched a join as the detail side it is marked joined and
cannot re-enter the work-set), returning a finite join list. -/
theorem c10_relevant_joins_terminates :
    ∀ (m : Mapper) (refs : List PhysicalReference),
      (m.relevant_joins refs).isSome = true := by
  intro m refs
  unfold Mapper.relevant_joins
  apply rjLoop_total
  · unfold rjFuel rjMeasure
    have hfe : (dedupList (m.joins.map detailKey)).filter
        (fun x => !decide (x ∈ ([] : List TKey))) = dedupList (m.joins.map detailKey) := by
      apply List.filter_eq_self.mpr
      intro a _
      simp
    rw [hfe]
    omega
  · exact dedupList_nodup _
  · intro t _ htj
    exact absurd htj (List.not_mem_nil t)

theorem make_ok_iff :
    ∀ (cube : Cube) (ms : Option (List (String × Ref)))
      (loc sch fn pfx : Option String) (rjs : List RawJoin) (m : Mapper),
      Mapper.make cube ms loc sch fn pfx rjs = .ok m ↔
      ∃ js, collect_joins (pyOrS fn (pyOrS cube.fact cube.name)) rjs = .ok js ∧
        m = ⟨cube, ms, loc, pyOrS fn (pyOrS cube.fact cube.name), sch, true, pfx,
             collect_attributes true cube, js⟩ := by
  intro cube ms loc sch fn pfx rjs m
  unfold Mapper.make
  cases hcj : collect_joins (pyOrS fn (pyOrS cube.fact cube.name)) rjs with
  | error e =>
      constructor
      · intro h
        exact absurd h (by simp)
      · rintro ⟨js, hjs, _⟩
        exact absurd hjs (by simp)
  | ok js =>
      constructor
      · intro h
        exact ⟨js, rfl, (Except.ok.inj h).symm⟩
      · rintro ⟨js2, hjs2, hm⟩
        have hjs : js = js2 := Except.ok.inj hjs2
        subst hm
        rw [hjs]

/-- C8: `physical` never consults the `mappings` constructor argument
stored on the Mapper (`self.mappings`); two Mappers constructed over the
same cube differing only in that argument answer `physical` identically. -/
theorem c8_mappings_arg_irrelevant :
    ∀ (cube : Cube) (ms1 ms2 : Option (List (String × Ref)))
      (loc sch fn pfx : Option String) (rjs : List RawJoin) (m1 m2 : Mapper)
      (attr : Attribute) (l : Option String),
      Mapper.make cube ms1 loc sch fn pfx rjs = .ok m1 →
      Mapper.make cube ms2 loc sch fn pfx rjs = .ok m2 →
      m1.physical attr l = m2.physical attr l := by
  intro cube ms1 ms2 loc sch fn pfx rjs m1 m2 attr l h1 h2
  obtain ⟨js1, hc1, hm1⟩ := (make_ok_iff cube ms1 loc sch fn pfx rjs m1).mp h1
  obtain ⟨js2, hc2, hm2⟩ := (make_ok_iff cube ms2 loc sch fn pfx rjs m2).mp h2
  rw [hc1] at hc2
  have hjs : js1 = js2 := Except.ok.inj hc2
  subst hjs
  subst hm1
  subst hm2
  rfl

/-- C8 witness: two constructed Mappers over the same cube, one with
`mappings = none` and one with a non-trivial `mappings` argument, agree on
`physical amount`. -/
theorem c8_mappings_arg_irrelevant_witness :
    m1w.physical amountAttr none = m2w.physical amountAttr none :=
  c8_mappings_arg_irrelevant wCube none (some [("x", Ref.str "y")]) none none
    none none [] m1w m2w amountAttr none (by decide) (by decide)

theorem coalesce_str_schema :
    ∀ (s : String) (dt sch : Option String) (r : PhysicalReference),
      coalesce_physical (Ref.str s) dt sch = .ok r → r.schema = sch := by
  intro s dt sch r h
  simp only [coalesce_physical] at h
  cases hsp : pySplitDot s with
  | nil =>
      rw [hsp] at h
      injection h with h2
      subst h2
      rfl
  | cons t rest =>
      cases rest with
      | nil =>
          rw [hsp] at h
          injection h with h2
          subst h2
          rfl
      | cons c rest2 =>
          rw [hsp] at h
          injection h with h2
          subst h2
          rfl

theorem coalesce_list2_eq (a b dt sch : Option String) :
    coalesce_physical (Ref.list [a, b]) dt sch = .ok ⟨sch, a, b⟩ := rfl

/-- C9: a constructed Mapper's joins are exactly the raw joins coalesced
with the fact name as the master's default table, no table default for the
detail, and no default schema on either side; hence a raw master/detail
given as a delimited string or a 2-element list is stored with schema
`none` (even when the Mapper has a default schema — `_collect_joins` never
receives one), and such a join's detail key has schema component `none`,
so it can only match input references whose schema is `none`. -/
theorem c9_collect_joins_defaults :
    (∀ (cube : Cube) (ms : Option (List (String × Ref)))
      (loc sch fn pfx : Option String) (rjs : List RawJoin) (m : Mapper),
      Mapper.make cube ms loc sch fn pfx rjs = .ok m →
      collect_joins m.fact_name rjs = .ok m.joins) ∧
    (∀ (fn : String) (rjs : List RawJoin) (js : List Join),
      collect_joins fn rjs = .ok js →
      ∀ j ∈ js, ∃ rj ∈ rjs,
        coalesce_physical rj.master (some fn) none = .ok j.master ∧
        coalesce_physical rj.detail none none = .ok j.detail ∧
        j.alias = rj.alias ∧
        ((∃ s, rj.detail = Ref.str s) ∨ (∃ a b, rj.detail = Ref.list [a, b]) →
          j.detail.schema = none ∧ (detailKey j).1 = none) ∧
        ((∃ s, rj.master = Ref.str s) ∨ (∃ a b, rj.master = Ref.list [a, b]) →
          j.master.schema = none)) := by
  constructor
  · intro cube ms loc sch fn pfx rjs m h
    obtain ⟨js, hc, hm⟩ := (make_ok_iff cube ms loc sch fn pfx rjs m).mp h
    subst hm
    exact hc
  · intro fn rjs
    induction rjs with
    | nil =>
        intro js h j hj
        unfold collect_joins at h
        injection h with h2
        subst h2
        exact absurd hj (List.not_mem_nil j)
    | cons rj rest ih =>
        intro js h j hj
        unfold collect_joins at h
        cases hm : coalesce_physical rj.master (some fn) none with
        | error e =>
            rw [hm] at h
            simp at h
        | ok mr =>
            rw [hm] at h
            cases hd : coalesce_physical rj.detail none none with
            | error e =>
                rw [hd] at h
                simp at h
            | ok dr =>
                rw [hd] at h
                cases hr : collect_joins fn rest with
                | error e =>
                    rw [hr] at h
                    simp at h
                | ok js2 =>
                    rw [hr] at h
                    injection h with h2
                    subst h2
                    rcases List.mem_cons.mp hj with rfl | hmem
                    · refine ⟨rj, List.mem_cons_self rj rest, hm, hd, rfl, ?_, ?_⟩
                      · rintro (⟨s, hs⟩ | ⟨a, b, hab⟩)
                        · have hds : dr.schema = none :=
                            coalesce_str_schema s none none dr (hs ▸ hd)
                          exact ⟨hds, hds⟩
                        · rw [hab, coalesce_list2_eq] at hd
                          have hde : dr = ⟨none, a, b⟩ := (Except.ok.inj hd).symm
                          subst hde
                          exact ⟨rfl, rfl⟩
                      · rintro (⟨s, hs⟩ | ⟨a, b, hab⟩)
                        · exact coalesce_str_schema s (some fn) none mr (hs ▸ hm)
                        · rw [hab, coalesce_list2_eq] at hm
                          have hme : mr = ⟨none, a, b⟩ := (Except.ok.inj hm).symm
                          subst hme
                          rfl
                    · obtain ⟨rj2, hmem2, hrest⟩ := ih js2 hr j hmem
                      exact ⟨rj2, List.mem_cons_of_mem rj hmem2, hrest⟩

/-- C9 witness: the example raw join (2-element-list master and detail)
collects to `exJoin1`, whose schemas and detail-key schema are `none`. -/
theorem c9_collect_joins_defaults_witness :
    collect_joins "sales" [exRawJoin1] = .ok [exJoin1] ∧
    ∃ rj ∈ [exRawJoin1],
      coalesce_physical rj.master (some "sales") none = .ok exJoin1.master ∧
      coalesce_physical rj.detail none none = .ok exJoin1.detail ∧
      exJoin1.alias = rj.alias ∧
      ((∃ s, rj.detail = Ref.str s) ∨ (∃ a b, rj.detail = Ref.list [a, b]) →
        exJoin1.detail.schema = none ∧ (detailKey exJoin1).1 = none) ∧
      ((∃ s, rj.master = Ref.str s) ∨ (∃ a b, rj.master = Ref.list [a, b]) →
        exJoin1.master.schema = none) :=
  ⟨by decide, c9_collect_joins_defaults.2 "sales" [exRawJoin1] [exJoin1]
    (by decide) exJoin1 (by decide)⟩
